import Mathlib

/-!
Verification development for the apollo-puller configuration-sync daemon
(`src/main.rs`).  The daemon subscribes to a remote configuration service,
receives batches of per-namespace configuration snapshots, materializes each
snapshot into bytes and writes it to `<dir>/<app_id>/<filename>`.

The embedding below is shallow: the pure parts of the program (namespace
canonicalization, materialization, host-identity resolution) become Lean
functions; the effectful parts (directory creation, file creation, writes)
become a trace of filesystem effects together with an explicit filesystem
state, and failure injection for the fallible system calls is provided by an
environment of boolean oracles.  Byte strings are modelled as `List Char`
(UTF-8 encoding of a Rust `String` is injective, so equality of the encoded
bytes coincides with equality of these character lists).
-/

set_option autoImplicit false

namespace ApolloPuller

/-- Filesystem paths, as the list of path components pushed onto a `PathBuf`. -/
abbrev Path := List String

/-- The fields of `apollo_client::conf::responses::FetchResponse` that
`run_app` reads: `app_id`, `namespace_name` and the key/value map
`configurations`.  The map is a Rust `HashMap`, embedded as an association
list in its iteration order; its keys are unique. -/
structure Snapshot where
  app_id : String
  namespace_name : String
  configurations : List (String × String)
deriving DecidableEq

/-- Modelled from the spec: `apollo_client::utils::canonicalize_namespace`
(the crate is an external collaborator, its source is not part of `src/`).
Per the spec, a namespace name that already carries a file extension is kept
unchanged and a bare name gets `.properties` appended: `"foo.properties"`
stays `"foo.properties"`, `"foo.json"` stays `"foo.json"`, `"foo"` becomes
`"foo.properties"`. -/
def canonicalizeNamespace (n : String) : String :=
  if n.data.contains '.' then n else n ++ ".properties"

/-- Lowercase hexadecimal digit for a value below 16, as produced by Rust's
`format!("{:04x}", _)`. -/
def toHexDigit (n : Nat) : Char :=
  if n < 10 then Char.ofNat (48 + n) else Char.ofNat (87 + n)

/-- Four-digit lowercase hexadecimal rendering of a code point, as produced
by `format!("\\x{:04x}", c)` in the INI writer's escaping routine. -/
def toHex4 (n : Nat) : List Char :=
  [toHexDigit (n / 4096 % 16), toHexDigit (n / 256 % 16),
   toHexDigit (n / 16 % 16), toHexDigit (n % 16)]

/-- Modelled from the spec: per-character escaping of the INI writer used for
`.properties` namespaces ("the exact escaping/quoting rules follow the
standard INI writer semantics of the chosen target's INI library"; the `ini`
crate is an external collaborator whose source is not part of `src/`).  Its
default policy escapes the backslash and the control characters, using the
usual mnemonic escapes where they exist and a `\x....` hex escape otherwise;
all other characters (in particular `=`, `;`, `#`, `:`) are written
verbatim. -/
def escapeChar (c : Char) : List Char :=
  if c = '\\' then ['\\', '\\']
  else if c.toNat = 0 then ['\\', '0']
  else if c.toNat = 7 then ['\\', 'a']
  else if c.toNat = 8 then ['\\', 'b']
  else if c.toNat = 9 then ['\\', 't']
  else if c.toNat = 10 then ['\\', 'n']
  else if c.toNat = 11 then ['\\', 'v']
  else if c.toNat = 12 then ['\\', 'f']
  else if c.toNat = 13 then ['\\', 'r']
  else if c.toNat ≤ 31 ∨ c.toNat = 127 then '\\' :: 'x' :: toHex4 c.toNat
  else [c]

/-- Escape a whole key or value for one INI line. -/
def escapeStr (s : List Char) : List Char :=
  (s.map escapeChar).flatten

/-- Modelled from the spec: the byte content the INI writer produces for a
single unnamed section, one `key=value` line per entry in iteration order,
each line terminated by a newline (the `=` separator and `\n` line separator
are the writer's defaults on the deployment platform).  An empty map produces
no section at all in `run_app` (the `set` loop never runs), hence empty
output. -/
def propsBytes (pairs : List (List Char × List Char)) : List Char :=
  (pairs.map (fun kv => escapeStr kv.1 ++ '=' :: escapeStr kv.2 ++ ['\n'])).flatten

/-- The materialization step of `run_app` (src/main.rs lines 162-174):
canonicalize the namespace name into a filename; if the filename ends in
`.properties`, render the configuration map as an INI document, otherwise
emit the UTF-8 bytes of the map's `"content"` entry (empty when absent). -/
def materialize (n : String) (m : List (String × String)) : String × List Char :=
  (canonicalizeNamespace n,
    if (".properties".data).isSuffixOf (canonicalizeNamespace n).data then
      propsBytes (m.map (fun kv => (kv.1.data, kv.2.data)))
    else
      ((List.lookup "content" m).getD "").data)

/-- Numeric value of a hexadecimal digit character, if it is one. -/
def hexVal (c : Char) : Option Nat :=
  if 48 ≤ c.toNat ∧ c.toNat ≤ 57 then some (c.toNat - 48)
  else if 97 ≤ c.toNat ∧ c.toNat ≤ 102 then some (c.toNat - 87)
  else if 65 ≤ c.toNat ∧ c.toNat ≤ 70 then some (c.toNat - 55)
  else none

/-- Decoding of a two-character escape sequence `\d`; characters that name no
recognized escape are taken literally. -/
def decodeEsc (d : Char) : Char :=
  if d = '0' then Char.ofNat 0
  else if d = 'a' then Char.ofNat 7
  else if d = 'b' then Char.ofNat 8
  else if d = 't' then Char.ofNat 9
  else if d = 'n' then Char.ofNat 10
  else if d = 'v' then Char.ofNat 11
  else if d = 'f' then Char.ofNat 12
  else if d = 'r' then Char.ofNat 13
  else d

/-- Modelled from the spec: the unescaping a standard INI parser performs on
a key or value, inverse to `escapeChar` on its image (backslash escapes and
four-digit `\x....` hex escapes). -/
def unescape : List Char → List Char
  | [] => []
  | ['\\'] => ['\\']
  | '\\' :: 'x' :: h1 :: h2 :: h3 :: h4 :: rest =>
    match hexVal h1, hexVal h2, hexVal h3, hexVal h4 with
    | some a, some b, some c2, some d2 =>
      Char.ofNat (((a * 16 + b) * 16 + c2) * 16 + d2) :: unescape rest
    | _, _, _, _ => 'x' :: unescape (h1 :: h2 :: h3 :: h4 :: rest)
  | '\\' :: 'x' :: rest => 'x' :: unescape rest
  | '\\' :: d :: rest => decodeEsc d :: unescape rest
  | c :: rest => c :: unescape rest

/-- Split a character sequence at every newline; the result always has one
more segment than there are newlines. -/
def splitNl : List Char → List (List Char)
  | [] => [[]]
  | c :: rest =>
    match splitNl rest with
    | [] => [[]]
    | l :: ls => if c = '\n' then [] :: l :: ls else (c :: l) :: ls

/-- Split one line at its first `=` separator into key part and value part. -/
def splitEq : List Char → List Char × List Char
  | [] => ([], [])
  | c :: rest =>
    if c = '=' then ([], rest)
    else ((c :: (splitEq rest).1), (splitEq rest).2)

/-- Parse one non-empty line into an unescaped key/value pair. -/
def parseLine (l : List Char) : List Char × List Char :=
  (unescape (splitEq l).1, unescape (splitEq l).2)

/-- Modelled from the spec: a standard INI parser for the documents the
materializer emits (a single unnamed section), recovering the key/value
pairs: split into lines, ignore empty lines, split each line at its first
`=`, and unescape key and value. -/
def parseProps (s : List Char) : List (List Char × List Char) :=
  (splitNl s).filterMap (fun l => if l = [] then none else some (parseLine l))

/-- Errors that `run_app`'s per-batch block can log: the batch-level upstream
error (`responses?`), the per-namespace upstream error (`response?`), and the
three fallible filesystem calls (`create_dir_all?`, `File::create?`,
`write_all?`). -/
inductive Err where
  | upstreamBatch (msg : String)
  | upstreamNs (msg : String)
  | mkdirFail (p : Path)
  | createFail (p : Path)
  | writeFail (p : Path)
deriving DecidableEq

/-- Observable effects of the watch loop: recursive directory creation,
file creation-or-truncation, a full write of bytes, a durable flush (never
emitted by this program, present so that its absence is expressible), and an
error log line. -/
inductive Eff where
  | mkdirAll (p : Path)
  | create (p : Path)
  | write (p : Path) (bytes : List Char)
  | flush (p : Path)
  | logErr (e : Err)
deriving DecidableEq

/-- Failure-injection oracles for the three fallible filesystem calls the
loop body makes; the operating system decides these, not the program. -/
structure FsEnv where
  mkdirFails : Path → Bool
  createFails : Path → Bool
  writeFails : Path → Bool

/-- An environment in which every filesystem call succeeds. -/
def allOk : FsEnv := ⟨fun _ => false, fun _ => false, fun _ => false⟩

/-- One entry of a batch: the namespace-name key of the response map together
with the per-namespace result (`Result<FetchResponse, _>`). -/
abbrev BatchEntry := String × Except String Snapshot

/-- One delivery of the subscription stream: either a batch-level upstream
error or the map of per-namespace results, embedded in its iteration
order. -/
abbrev Batch := Except String (List BatchEntry)

/-- The body of `run_app`'s per-namespace iteration (src/main.rs lines
155-178): unwrap the per-namespace result, create `base/app_id` recursively,
materialize, then create and write `base/app_id/filename`.  Returns the
effects actually performed and the error aborting the iteration, if any. -/
def processEntry (env : FsEnv) (base : Path) (e : BatchEntry) : List Eff × Option Err :=
  match e.2 with
  | .error msg => ([], some (.upstreamNs msg))
  | .ok resp =>
    if env.mkdirFails (base ++ [resp.app_id]) then
      ([], some (.mkdirFail (base ++ [resp.app_id])))
    else if env.createFails (base ++ [resp.app_id, (materialize resp.namespace_name resp.configurations).1]) then
      ([.mkdirAll (base ++ [resp.app_id])],
       some (.createFail (base ++ [resp.app_id, (materialize resp.namespace_name resp.configurations).1])))
    else if env.writeFails (base ++ [resp.app_id, (materialize resp.namespace_name resp.configurations).1]) then
      ([.mkdirAll (base ++ [resp.app_id]),
        .create (base ++ [resp.app_id, (materialize resp.namespace_name resp.configurations).1])],
       some (.writeFail (base ++ [resp.app_id, (materialize resp.namespace_name resp.configurations).1])))
    else
      ([.mkdirAll (base ++ [resp.app_id]),
        .create (base ++ [resp.app_id, (materialize resp.namespace_name resp.configurations).1]),
        .write (base ++ [resp.app_id, (materialize resp.namespace_name resp.configurations).1])
          (materialize resp.namespace_name resp.configurations).2],
       none)

/-- The `for (_, response) in responses` loop inside the per-batch `async`
block: entries are handled sequentially; the first error aborts the loop via
`?`, so the remaining entries are skipped, and the error is logged by the
`if let Err(e)` handler. -/
def processEntries (env : FsEnv) (base : Path) : List BatchEntry → List Eff
  | [] => []
  | e :: rest =>
    match (processEntry env base e).2 with
    | some err => (processEntry env base e).1 ++ [.logErr err]
    | none => (processEntry env base e).1 ++ processEntries env base rest

/-- One iteration of the `while let` loop: a batch-level upstream error is
logged and nothing else happens; otherwise the entries are processed. -/
def processBatch (env : FsEnv) (base : Path) : Batch → List Eff
  | .error msg => [.logErr (.upstreamBatch msg)]
  | .ok entries => processEntries env base entries

/-- The `while let Some(responses) = stream.next().await` loop of `run_app`:
every batch the stream yields is processed, in stream order, regardless of
any error in earlier batches; the loop ends only when the stream ends. -/
def watchLoop (env : FsEnv) (base : Path) : List Batch → List Eff
  | [] => []
  | b :: rest => processBatch env base b ++ watchLoop env base rest

/-- Filesystem state: the set of directories known to exist and the files
with their byte content (later writes shadow earlier ones). -/
structure Fs where
  dirs : List Path
  files : List (Path × List Char)
deriving DecidableEq

/-- Insert a directory if it is not already present; creating an existing
directory is not an error and changes nothing. -/
def insertDir (ds : List Path) (q : Path) : List Path :=
  if q ∈ ds then ds else ds ++ [q]

/-- The non-empty ancestor chain of a path, shortest first, as
`create_dir_all` creates them. -/
def ancestorsOf (p : Path) : List Path :=
  (List.range p.length).map (fun i => p.take (i + 1))

/-- Effect of `create_dir_all`: every missing ancestor is created. -/
def mkdirs (ds : List Path) (p : Path) : List Path :=
  (ancestorsOf p).foldl insertDir ds

/-- Apply one effect to the filesystem state.  `create` truncates the file to
empty content, `write` replaces the content with the full byte string,
`flush` and logging do not change the state. -/
def applyEff (fs : Fs) : Eff → Fs
  | .mkdirAll p => { fs with dirs := mkdirs fs.dirs p }
  | .create p => { fs with files := (p, []) :: fs.files }
  | .write p c => { fs with files := (p, c) :: fs.files }
  | .flush _ => fs
  | .logErr _ => fs

/-- Apply a whole effect trace, left to right. -/
def applyTrace (fs : Fs) (t : List Eff) : Fs :=
  t.foldl applyEff fs

/-- Current content of the file at a path, if it exists. -/
def lookupFile (fs : Fs) (p : Path) : Option (List Char) :=
  (fs.files.find? (fun kv => kv.1 == p)).map (fun kv => kv.2)

/-- Paths written by a trace, in the order the writes happen. -/
def writesOf (t : List Eff) : List Path :=
  t.filterMap (fun e => match e with | .write p _ => some p | _ => none)

/-- Predicate selecting flush effects. -/
def isFlush : Eff → Bool
  | .flush _ => true
  | _ => false

/-- The `Host` variant of the configuration file (src/main.rs lines 72-78). -/
inductive Host where
  | HostName
  | HostCidr (cidr : String)
  | Custom (custom : String)
deriving DecidableEq

/-- A parsed CIDR block as produced by `cidr_utils::cidr::IpCidr::from_str`;
the parser itself is an external collaborator, so the parsed form is kept
opaque and the parse function is an environment parameter. -/
structure IpCidr where
  block : String
deriving DecidableEq

/-- The `apollo_client::conf::meta::IpValue` targeting value. -/
inductive IpValue where
  | HostName
  | HostCidr (c : IpCidr)
  | Custom (v : String)
deriving DecidableEq

/-- Startup errors that `run` (and `main` via `?`) can report: top-level
directory creation, URL parsing, client construction, and the invalid host
spec from CIDR parsing. -/
inductive StartErr where
  | ioDir (p : Path)
  | badUrl (u : String)
  | clientBuildFail
  | invalidHostSpec (cidr : String)
deriving DecidableEq

/-- The host identity resolver `host_to_ip_value` (src/main.rs lines
189-195): `HostName` and `Custom` are infallible and `Custom` passes its
value through unchanged; `HostCidr` parses the CIDR string and propagates a
parse failure. -/
def host_to_ip_value (parseCidr : String → Option IpCidr) : Host → Except StartErr IpValue
  | .HostName => .ok .HostName
  | .HostCidr cidr =>
    match parseCidr cidr with
    | some c => .ok (.HostCidr c)
    | none => .error (.invalidHostSpec cidr)
  | .Custom v => .ok (.Custom v)

/-- The `App` entry of the configuration file. -/
structure App where
  app_id : String
  namespaces : List String
deriving DecidableEq

/-- The log level enumeration of the configuration file. -/
inductive LogLevel where
  | off | error | warn | info | debug | trace
deriving DecidableEq

/-- The configuration file contents (src/main.rs lines 36-56). -/
structure Config where
  log_level : LogLevel
  worker_threads : Option Nat
  dir : Path
  config_service_url : String
  host : Option Host
  apps : List App

/-- The subscription request `run_app` sends: app id, the declared namespace
list, and the shared targeting value. -/
structure WatchRequest where
  app_id : String
  namespace_names : List String
  ip : Option IpValue
deriving DecidableEq

/-- Environment for `run`: the behavior of the external collaborators (URL
parsing, client construction, CIDR parsing, the subscription stream each
watch request receives) and the filesystem failure oracles. -/
structure RunEnv where
  createBaseDirFails : Bool
  urlParseFails : Bool
  clientBuildFails : Bool
  parseCidr : String → Option IpCidr
  watch : WatchRequest → List Batch
  fs : FsEnv

/-- The whole of `run_app` (src/main.rs lines 141-187) for one application:
open the subscription for `(app_id, namespaces, ip)` and consume the stream
it yields. -/
def run_app (env : RunEnv) (ip : Option IpValue) (app : App) (base_dir : Path) : List Eff :=
  watchLoop env.fs base_dir (env.watch ⟨app.app_id, app.namespaces, ip⟩)

/-- The `run` function (src/main.rs lines 114-139): create the base
directory, build the client from the parsed URL, resolve the optional host
identity, then start one watch loop per app and wait for all of them.  A
successful run returns the per-application effect traces, in app order; any
startup failure is returned before a single watch loop starts. -/
def run (env : RunEnv) (cfg : Config) : Except StartErr (List (List Eff)) :=
  if env.createBaseDirFails then .error (.ioDir cfg.dir)
  else if env.urlParseFails then .error (.badUrl cfg.config_service_url)
  else if env.clientBuildFails then .error .clientBuildFail
  else
    match cfg.host with
    | none => .ok (cfg.apps.map (fun app => run_app env none app cfg.dir))
    | some h =>
      match host_to_ip_value env.parseCidr h with
      | .error e => .error e
      | .ok ip => .ok (cfg.apps.map (fun app => run_app env (some ip) app cfg.dir))

/-- Rust's `Termination` impl for the `anyhow::Result` returned by `main`:
an `Err` propagated out of `run` terminates the process with a non-zero
status. -/
def mainExitCode (r : Except StartErr (List (List Eff))) : Nat :=
  match r with
  | .ok _ => 0
  | .error _ => 1

/-! Helper lemmas about the INI escaping and parsing model. -/

lemma unescape_cons_plain (c : Char) (t : List Char) (h : c ≠ '\\') :
    unescape (c :: t) = c :: unescape t := by
  rw [unescape.eq_def]
  split <;> simp_all

lemma hexVal_toHexDigit (d : Nat) (h : d < 16) : hexVal (toHexDigit d) = some d := by
  interval_cases d <;> decide

lemma toHexDigit_ne_nl_eq (d : Nat) (h : d < 16) :
    toHexDigit d ≠ '\n' ∧ toHexDigit d ≠ '=' := by
  interval_cases d <;> exact ⟨by decide, by decide⟩

lemma ofNat_of_toNat_eq (c : Char) (n : Nat) (h : c.toNat = n) : c = Char.ofNat n := by
  rw [← h, Char.ofNat_toNat]

lemma unescape_escapeChar (c : Char) (t : List Char) :
    unescape (escapeChar c ++ t) = c :: unescape t := by
  by_cases h1 : c = '\\'
  · subst h1; rfl
  by_cases h2 : c.toNat = 0
  · rw [ofNat_of_toNat_eq c 0 h2]; rfl
  by_cases h3 : c.toNat = 7
  · rw [ofNat_of_toNat_eq c 7 h3]; rfl
  by_cases h4 : c.toNat = 8
  · rw [ofNat_of_toNat_eq c 8 h4]; rfl
  by_cases h5 : c.toNat = 9
  · rw [ofNat_of_toNat_eq c 9 h5]; rfl
  by_cases h6 : c.toNat = 10
  · rw [ofNat_of_toNat_eq c 10 h6]; rfl
  by_cases h7 : c.toNat = 11
  · rw [ofNat_of_toNat_eq c 11 h7]; rfl
  by_cases h8 : c.toNat = 12
  · rw [ofNat_of_toNat_eq c 12 h8]; rfl
  by_cases h9 : c.toNat = 13
  · rw [ofNat_of_toNat_eq c 13 h9]; rfl
  by_cases h10 : c.toNat ≤ 31 ∨ c.toNat = 127
  · have hke : escapeChar c = '\\' :: 'x' :: toHex4 c.toNat := by
      simp [escapeChar, h1, h2, h3, h4, h5, h6, h7, h8, h9, h10]
    rw [hke]
    simp only [toHex4, List.cons_append]
    rw [unescape]
    rw [hexVal_toHexDigit _ (Nat.mod_lt _ (by norm_num)),
        hexVal_toHexDigit _ (Nat.mod_lt _ (by norm_num)),
        hexVal_toHexDigit _ (Nat.mod_lt _ (by norm_num)),
        hexVal_toHexDigit _ (Nat.mod_lt _ (by norm_num))]
    have harep : ((c.toNat / 4096 % 16 * 16 + c.toNat / 256 % 16) * 16 + c.toNat / 16 % 16) * 16
        + c.toNat % 16 = c.toNat := by
      rcases h10 with h | h <;> omega
    show Char.ofNat (((c.toNat / 4096 % 16 * 16 + c.toNat / 256 % 16) * 16 + c.toNat / 16 % 16) * 16
        + c.toNat % 16) :: unescape ([] ++ t) = c :: unescape t
    rw [harep, Char.ofNat_toNat, List.nil_append]
  · have hke : escapeChar c = [c] := by
      simp [escapeChar, h1, h2, h3, h4, h5, h6, h7, h8, h9, h10]
    rw [hke, List.singleton_append]
    exact unescape_cons_plain c t h1

lemma unescape_escapeStr (s t : List Char) :
    unescape (escapeStr s ++ t) = s ++ unescape t := by
  induction s with
  | nil => simp [escapeStr]
  | cons c s ih =>
    have hs : escapeStr (c :: s) = escapeChar c ++ escapeStr s := by
      simp [escapeStr]
    rw [hs, List.append_assoc, unescape_escapeChar, ih]
    rfl

lemma unescape_escapeStr_nil (s : List Char) : unescape (escapeStr s) = s := by
  have h := unescape_escapeStr s []
  simpa [unescape] using h

lemma nl_not_mem_escapeChar (c : Char) : '\n' ∉ escapeChar c := by
  by_cases h1 : c = '\\'
  · subst h1; decide
  by_cases h2 : c.toNat = 0
  · rw [ofNat_of_toNat_eq c 0 h2]; decide
  by_cases h3 : c.toNat = 7
  · rw [ofNat_of_toNat_eq c 7 h3]; decide
  by_cases h4 : c.toNat = 8
  · rw [ofNat_of_toNat_eq c 8 h4]; decide
  by_cases h5 : c.toNat = 9
  · rw [ofNat_of_toNat_eq c 9 h5]; decide
  by_cases h6 : c.toNat = 10
  · rw [ofNat_of_toNat_eq c 10 h6]; decide
  by_cases h7 : c.toNat = 11
  · rw [ofNat_of_toNat_eq c 11 h7]; decide
  by_cases h8 : c.toNat = 12
  · rw [ofNat_of_toNat_eq c 12 h8]; decide
  by_cases h9 : c.toNat = 13
  · rw [ofNat_of_toNat_eq c 13 h9]; decide
  by_cases h10 : c.toNat ≤ 31 ∨ c.toNat = 127
  · have hke : escapeChar c = '\\' :: 'x' :: toHex4 c.toNat := by
      simp [escapeChar, h1, h2, h3, h4, h5, h6, h7, h8, h9, h10]
    rw [hke]
    intro hmem
    simp only [toHex4, List.mem_cons, List.not_mem_nil, or_false] at hmem
    rcases hmem with h | h | h | h | h | h
    · exact absurd h (by decide)
    · exact absurd h (by decide)
    · exact (toHexDigit_ne_nl_eq _ (Nat.mod_lt _ (by norm_num))).1 h.symm
    · exact (toHexDigit_ne_nl_eq _ (Nat.mod_lt _ (by norm_num))).1 h.symm
    · exact (toHexDigit_ne_nl_eq _ (Nat.mod_lt _ (by norm_num))).1 h.symm
    · exact (toHexDigit_ne_nl_eq _ (Nat.mod_lt _ (by norm_num))).1 h.symm
  · have hke : escapeChar c = [c] := by
      simp [escapeChar, h1, h2, h3, h4, h5, h6, h7, h8, h9, h10]
    rw [hke]
    intro hmem
    have heq := List.mem_singleton.mp hmem
    subst heq
    exact h6 rfl

lemma eqch_not_mem_escapeChar (c : Char) (hc : c ≠ '=') : '=' ∉ escapeChar c := by
  by_cases h1 : c = '\\'
  · subst h1; decide
  by_cases h2 : c.toNat = 0
  · rw [ofNat_of_toNat_eq c 0 h2]; decide
  by_cases h3 : c.toNat = 7
  · rw [ofNat_of_toNat_eq c 7 h3]; decide
  by_cases h4 : c.toNat = 8
  · rw [ofNat_of_toNat_eq c 8 h4]; decide
  by_cases h5 : c.toNat = 9
  · rw [ofNat_of_toNat_eq c 9 h5]; decide
  by_cases h6 : c.toNat = 10
  · rw [ofNat_of_toNat_eq c 10 h6]; decide
  by_cases h7 : c.toNat = 11
  · rw [ofNat_of_toNat_eq c 11 h7]; decide
  by_cases h8 : c.toNat = 12
  · rw [ofNat_of_toNat_eq c 12 h8]; decide
  by_cases h9 : c.toNat = 13
  · rw [ofNat_of_toNat_eq c 13 h9]; decide
  by_cases h10 : c.toNat ≤ 31 ∨ c.toNat = 127
  · have hke : escapeChar c = '\\' :: 'x' :: toHex4 c.toNat := by
      simp [escapeChar, h1, h2, h3, h4, h5, h6, h7, h8, h9, h10]
    rw [hke]
    intro hmem
    simp only [toHex4, List.mem_cons, List.not_mem_nil, or_false] at hmem
    rcases hmem with h | h | h | h | h | h
    · exact absurd h (by decide)
    · exact absurd h (by decide)
    · exact (toHexDigit_ne_nl_eq _ (Nat.mod_lt _ (by norm_num))).2 h.symm
    · exact (toHexDigit_ne_nl_eq _ (Nat.mod_lt _ (by norm_num))).2 h.symm
    · exact (toHexDigit_ne_nl_eq _ (Nat.mod_lt _ (by norm_num))).2 h.symm
    · exact (toHexDigit_ne_nl_eq _ (Nat.mod_lt _ (by norm_num))).2 h.symm
  · have hke : escapeChar c = [c] := by
      simp [escapeChar, h1, h2, h3, h4, h5, h6, h7, h8, h9, h10]
    rw [hke]
    intro hmem
    exact hc (List.mem_singleton.mp hmem).symm

lemma nl_not_mem_escapeStr (s : List Char) : '\n' ∉ escapeStr s := by
  intro hmem
  rw [escapeStr, List.mem_flatten] at hmem
  obtain ⟨l, hl, hx⟩ := hmem
  rw [List.mem_map] at hl
  obtain ⟨c, _, rfl⟩ := hl
  exact nl_not_mem_escapeChar c hx

lemma eqch_not_mem_escapeStr (s : List Char) (h : '=' ∉ s) : '=' ∉ escapeStr s := by
  intro hmem
  rw [escapeStr, List.mem_flatten] at hmem
  obtain ⟨l, hl, hx⟩ := hmem
  rw [List.mem_map] at hl
  obtain ⟨c, hcs, rfl⟩ := hl
  exact eqch_not_mem_escapeChar c (fun e => h (e ▸ hcs)) hx

lemma splitNl_ne_nil (s : List Char) : splitNl s ≠ [] := by
  induction s with
  | nil => simp [splitNl]
  | cons c rest ih =>
    rw [splitNl]
    cases h : splitNl rest with
    | nil => simp [h]
    | cons l ls => by_cases hc : c = '\n' <;> simp [h, hc]

lemma splitNl_append_nl (a b : List Char) (h : '\n' ∉ a) :
    splitNl (a ++ '\n' :: b) = a :: splitNl b := by
  induction a with
  | nil =>
    simp only [List.nil_append]
    rw [splitNl]
    cases hb : splitNl b with
    | nil => exact absurd hb (splitNl_ne_nil b)
    | cons l ls => simp
  | cons c a ih =>
    have hc : c ≠ '\n' := fun e => h (by simp [e])
    have h2 : '\n' ∉ a := fun m => h (by simp [m])
    simp only [List.cons_append]
    rw [splitNl, ih h2]
    simp [hc]

lemma splitEq_append (k v : List Char) (h : '=' ∉ k) : splitEq (k ++ '=' :: v) = (k, v) := by
  induction k with
  | nil => simp [splitEq]
  | cons c k ih =>
    have hc : c ≠ '=' := fun e => h (by simp [e])
    have h2 : '=' ∉ k := fun m => h (by simp [m])
    simp [splitEq, hc, ih h2]

lemma parseProps_propsBytes (pairs : List (List Char × List Char))
    (hk : ∀ kv ∈ pairs, '=' ∉ kv.1) :
    parseProps (propsBytes pairs) = pairs := by
  induction pairs with
  | nil => rfl
  | cons kv rest ih =>
    obtain ⟨k, v⟩ := kv
    have hk1 : '=' ∉ k := hk (k, v) (by simp)
    have hkr : ∀ x ∈ rest, '=' ∉ x.1 := fun x hx => hk x (by simp [hx])
    have hline : propsBytes ((k, v) :: rest) =
        (escapeStr k ++ '=' :: escapeStr v) ++ '\n' :: propsBytes rest := by
      simp [propsBytes]
    have hnl : '\n' ∉ escapeStr k ++ '=' :: escapeStr v := by
      intro hm
      rcases List.mem_append.mp hm with hm | hm
      · exact nl_not_mem_escapeStr k hm
      · rcases List.mem_cons.mp hm with hm | hm
        · exact absurd hm (by decide)
        · exact nl_not_mem_escapeStr v hm
    have hA : (escapeStr k ++ '=' :: escapeStr v) ≠ [] := by simp
    rw [hline]
    unfold parseProps
    rw [splitNl_append_nl _ _ hnl]
    rw [List.filterMap_cons]
    rw [if_neg hA]
    show parseLine (escapeStr k ++ '=' :: escapeStr v) :: parseProps (propsBytes rest)
      = (k, v) :: rest
    rw [ih hkr]
    unfold parseLine
    rw [splitEq_append _ _ (eqch_not_mem_escapeStr k hk1)]
    rw [unescape_escapeStr_nil, unescape_escapeStr_nil]

/-! Helper lemmas about the effect model. -/

lemma processEntry_ok (env : FsEnv) (base : Path) (k : String) (resp : Snapshot)
    (hm : env.mkdirFails (base ++ [resp.app_id]) = false)
    (hc : env.createFails (base ++ [resp.app_id,
      (materialize resp.namespace_name resp.configurations).1]) = false)
    (hw : env.writeFails (base ++ [resp.app_id,
      (materialize resp.namespace_name resp.configurations).1]) = false) :
    processEntry env base (k, Except.ok resp) =
      ([.mkdirAll (base ++ [resp.app_id]),
        .create (base ++ [resp.app_id, (materialize resp.namespace_name resp.configurations).1]),
        .write (base ++ [resp.app_id, (materialize resp.namespace_name resp.configurations).1])
          (materialize resp.namespace_name resp.configurations).2], none) := by
  simp [processEntry, hm, hc, hw]

lemma processEntry_none_shape (env : FsEnv) (base : Path) (k : String) (resp : Snapshot)
    (h : (processEntry env base (k, Except.ok resp)).2 = none) :
    processEntry env base (k, Except.ok resp) =
      ([.mkdirAll (base ++ [resp.app_id]),
        .create (base ++ [resp.app_id, (materialize resp.namespace_name resp.configurations).1]),
        .write (base ++ [resp.app_id, (materialize resp.namespace_name resp.configurations).1])
          (materialize resp.namespace_name resp.configurations).2], none) := by
  unfold processEntry at h ⊢
  simp only at h ⊢
  split_ifs at h ⊢ <;> simp_all

lemma processEntries_append (env : FsEnv) (base : Path) (pre l : List BatchEntry)
    (h : ∀ x ∈ pre, (processEntry env base x).2 = none) :
    processEntries env base (pre ++ l)
      = (pre.map (fun x => (processEntry env base x).1)).flatten
          ++ processEntries env base l := by
  induction pre with
  | nil => simp
  | cons e pre ih =>
    have he : (processEntry env base e).2 = none := h e (by simp)
    have hh : ∀ x ∈ pre, (processEntry env base x).2 = none := fun x hx => h x (by simp [hx])
    simp only [List.cons_append]
    rw [processEntries, he, ih hh]
    simp

lemma mem_insertDir_self (ds : List Path) (q : Path) : q ∈ insertDir ds q := by
  unfold insertDir
  split
  · assumption
  · simp

lemma mem_insertDir_mono (ds : List Path) (q r : Path) (h : r ∈ ds) : r ∈ insertDir ds q := by
  unfold insertDir
  split
  · exact h
  · simp [h]

lemma mem_foldl_insertDir_init (qs : List Path) (ds : List Path) (r : Path) (h : r ∈ ds) :
    r ∈ qs.foldl insertDir ds := by
  induction qs generalizing ds with
  | nil => exact h
  | cons a qs ih => exact ih _ (mem_insertDir_mono _ _ _ h)

lemma mem_foldl_insertDir_mem (qs : List Path) (ds : List Path) (q : Path) (h : q ∈ qs) :
    q ∈ qs.foldl insertDir ds := by
  induction qs generalizing ds with
  | nil => cases h
  | cons a qs ih =>
    simp only [List.foldl_cons]
    rcases List.mem_cons.mp h with rfl | h
    · exact mem_foldl_insertDir_init qs (insertDir ds q) q (mem_insertDir_self ds q)
    · exact ih _ h

lemma foldl_insertDir_fixed (qs : List Path) (ds : List Path) (h : ∀ q ∈ qs, q ∈ ds) :
    qs.foldl insertDir ds = ds := by
  induction qs with
  | nil => rfl
  | cons a qs ih =>
    have ha : insertDir ds a = ds := by
      unfold insertDir
      rw [if_pos (h a (by simp))]
    rw [List.foldl_cons, ha, ih (fun q hq => h q (by simp [hq]))]

lemma mkdirs_idem (ds : List Path) (p : Path) : mkdirs (mkdirs ds p) p = mkdirs ds p :=
  foldl_insertDir_fixed _ _ (fun q hq => mem_foldl_insertDir_mem _ _ _ hq)

lemma lookupFile_write_head (dirs : List Path) (files : List (Path × List Char))
    (p : Path) (c : List Char) :
    lookupFile ⟨dirs, (p, c) :: files⟩ p = some c := by
  simp [lookupFile, List.find?]

lemma writesOf_append (a b : List Eff) : writesOf (a ++ b) = writesOf a ++ writesOf b := by
  rw [writesOf, writesOf, writesOf, List.filterMap_append]

lemma writesOf_processEntries (env : FsEnv) (base : Path) (es : List BatchEntry)
    (h : ∀ x ∈ es, (processEntry env base x).2 = none) :
    writesOf (processEntries env base es)
      = es.filterMap (fun x =>
          match x.2 with
          | .ok r => some (base ++ [r.app_id, (materialize r.namespace_name r.configurations).1])
          | .error _ => none) := by
  induction es with
  | nil => rfl
  | cons x es ih =>
    obtain ⟨kx, rx⟩ := x
    have hx := h (kx, rx) (by simp)
    have hrest : ∀ y ∈ es, (processEntry env base y).2 = none := fun y hy => h y (by simp [hy])
    cases rx with
    | error msg => simp [processEntry] at hx
    | ok r =>
      have hshape := processEntry_none_shape env base kx r hx
      rw [processEntries, hx]
      rw [writesOf_append, ih hrest, hshape]
      rfl

/-! The claims. -/

/-- C1: within one application's watch loop, if processing some namespace
entry of a batch fails (upstream error value, directory-create failure,
file-create failure or write failure — every error `processEntry` can
return), then the remaining entries of that batch contribute nothing (they
are skipped), the error is logged, and the loop continues with every
following batch of the stream, so the failure never terminates the loop.
The second conjunct is the sibling-isolation part: another application's
trace depends only on its own subscription stream and the filesystem
oracles, so no failure occurring in a different application's stream can
change it. -/
theorem c1_batch_failure_isolated (env : FsEnv) (base : Path)
    (pre : List BatchEntry) (e : BatchEntry) (post : List BatchEntry)
    (rest : List Batch) (err : Err)
    (hpre : ∀ x ∈ pre, (processEntry env base x).2 = none)
    (herr : (processEntry env base e).2 = some err) :
    watchLoop env base (Except.ok (pre ++ e :: post) :: rest)
      = (pre.map (fun x => (processEntry env base x).1)).flatten
        ++ (processEntry env base e).1 ++ [Eff.logErr err]
        ++ watchLoop env base rest
    ∧ ∀ (e1 e2 : RunEnv) (ip : Option IpValue) (app : App) (bd : Path),
        e1.fs = e2.fs →
        e1.watch ⟨app.app_id, app.namespaces, ip⟩ = e2.watch ⟨app.app_id, app.namespaces, ip⟩ →
        run_app e1 ip app bd = run_app e2 ip app bd := by
  constructor
  · rw [watchLoop]
    have hb : processBatch env base (Except.ok (pre ++ e :: post))
        = processEntries env base (pre ++ e :: post) := rfl
    rw [hb, processEntries_append env base pre (e :: post) hpre]
    rw [processEntries, herr]
    simp [List.append_assoc]
  · intro e1 e2 ip app bd hfs hw
    rw [run_app, run_app, hfs, hw]

/-- C1 witness: a concrete batch whose second entry carries an upstream
error, followed by one more batch that is still processed. -/
theorem c1_witness :
    (∀ x ∈ [(("a.json" : String), Except.ok (⟨"app1", "a.json", [("content", "A")]⟩ : Snapshot))],
      (processEntry allOk ["cfg"] x).2 = none)
    ∧ (processEntry allOk ["cfg"] ("b.json", Except.error "boom")).2
        = some (Err.upstreamNs "boom")
    ∧ watchLoop allOk ["cfg"]
        [Except.ok [("a.json", Except.ok ⟨"app1", "a.json", [("content", "A")]⟩),
                    ("b.json", Except.error "boom"),
                    ("c.json", Except.ok ⟨"app1", "c.json", [("content", "C")]⟩)],
         Except.ok [("d.json", Except.ok ⟨"app1", "d.json", [("content", "D")]⟩)]]
      = ([(("a.json" : String), Except.ok (⟨"app1", "a.json", [("content", "A")]⟩ : Snapshot))].map
            (fun x => (processEntry allOk ["cfg"] x).1)).flatten
        ++ (processEntry allOk ["cfg"] ("b.json", Except.error "boom")).1
        ++ [Eff.logErr (Err.upstreamNs "boom")]
        ++ watchLoop allOk ["cfg"]
            [Except.ok [("d.json", Except.ok ⟨"app1", "d.json", [("content", "D")]⟩)]] :=
  ⟨by decide, by decide,
    (c1_batch_failure_isolated allOk ["cfg"]
      [("a.json", Except.ok ⟨"app1", "a.json", [("content", "A")]⟩)]
      ("b.json", Except.error "boom")
      [("c.json", Except.ok ⟨"app1", "c.json", [("content", "C")]⟩)]
      [Except.ok [("d.json", Except.ok ⟨"app1", "d.json", [("content", "D")]⟩)]]
      (Err.upstreamNs "boom") (by decide) (by decide)).1⟩

/-- C2 counterexample: in a batch whose first entry (namespace A) carries an
upstream error and whose second entry (namespace B) is a valid snapshot, B
is not processed: the whole trace is one log line and B's file does not
exist afterwards.  This refutes the claim that B is "nevertheless still
processed in that same batch". -/
theorem c2_counterexample :
    watchLoop allOk ["cfg"]
        [Except.ok [("alpha.json", Except.error "boom"),
                    ("beta.json", Except.ok ⟨"app1", "beta.json", [("content", "B")]⟩)]]
      = [Eff.logErr (Err.upstreamNs "boom")]
    ∧ lookupFile
        (applyTrace ⟨[], []⟩
          (watchLoop allOk ["cfg"]
            [Except.ok [("alpha.json", Except.error "boom"),
                        ("beta.json", Except.ok ⟨"app1", "beta.json", [("content", "B")]⟩)]]))
        ["cfg", "app1", "beta.json"]
      = none := by
  exact ⟨by decide, by decide⟩

/-- C2 (amended): namespace B of a batch in which namespace A fails is still
processed — its snapshot is materialized and the write of its materialized
bytes to its file is part of the batch's trace — exactly when B precedes the
failing entry in the batch's iteration order; entries after the failure are
skipped until the next batch (see C1). -/
theorem c2_amended_prior_entries_processed (env : FsEnv) (base : Path)
    (pre : List BatchEntry) (k msg : String) (post : List BatchEntry)
    (kB : String) (respB : Snapshot)
    (hpre : ∀ x ∈ pre, (processEntry env base x).2 = none)
    (hB : (kB, Except.ok respB) ∈ pre) :
    Eff.write (base ++ [respB.app_id, (materialize respB.namespace_name respB.configurations).1])
        (materialize respB.namespace_name respB.configurations).2
      ∈ processBatch env base (Except.ok (pre ++ (k, Except.error msg) :: post)) := by
  have hnone := hpre _ hB
  have hshape := processEntry_none_shape env base kB respB hnone
  have hb : processBatch env base (Except.ok (pre ++ (k, Except.error msg) :: post))
      = processEntries env base (pre ++ (k, Except.error msg) :: post) := rfl
  rw [hb, processEntries_append env base pre _ hpre]
  refine List.mem_append.mpr (Or.inl ?_)
  rw [List.mem_flatten]
  refine ⟨(processEntry env base (kB, Except.ok respB)).1, List.mem_map.mpr ⟨_, hB, rfl⟩, ?_⟩
  rw [hshape]
  simp

/-- C2 witness: B before the failing A; B's write effect is in the trace. -/
theorem c2_amended_witness :
    (∀ x ∈ [(("beta.json" : String), Except.ok (⟨"app1", "beta.json", [("content", "B")]⟩ : Snapshot))],
      (processEntry allOk ["cfg"] x).2 = none)
    ∧ Eff.write (["cfg"] ++ ["app1",
          (materialize "beta.json" [("content", "B")]).1])
        (materialize "beta.json" [("content", "B")]).2
      ∈ processBatch allOk ["cfg"]
          (Except.ok ([("beta.json", Except.ok ⟨"app1", "beta.json", [("content", "B")]⟩)]
            ++ ("alpha.json", Except.error "boom") :: [])) :=
  ⟨by decide,
    c2_amended_prior_entries_processed allOk ["cfg"]
      [("beta.json", Except.ok ⟨"app1", "beta.json", [("content", "B")]⟩)]
      "alpha.json" "boom" [] "beta.json" ⟨"app1", "beta.json", [("content", "B")]⟩
      (by decide) (List.mem_singleton.mpr rfl)⟩

/-- C3: the materialization step (canonicalize the filename, select the
format, produce the bytes) is a pure function of the namespace name and the
configuration map, so two calls on the same `(N, M)` yield the identical
filename and byte-identical content. -/
theorem c3_materialize_deterministic (n1 n2 : String) (m1 m2 : List (String × String))
    (hn : n1 = n2) (hm : m1 = m2) : materialize n1 m1 = materialize n2 m2 := by
  rw [hn, hm]

/-- C3 witness: two calls on a concrete `(N, M)` agree. -/
theorem c3_witness :
    ("app.properties" : String) = "app.properties"
    ∧ [(("a" : String), ("b" : String))] = [("a", "b")]
    ∧ materialize "app.properties" [("a", "b")] = materialize "app.properties" [("a", "b")] :=
  ⟨rfl, rfl, c3_materialize_deterministic "app.properties" "app.properties"
    [("a", "b")] [("a", "b")] rfl rfl⟩

/-- C4: for a namespace whose canonicalized filename does not end in
`.properties`, the materialized bytes are the UTF-8 bytes of the map's value
at the literal key `"content"` when present and empty when absent, and no
other key of the map influences the output (two maps agreeing at `"content"`
materialize identically). -/
theorem c4_non_properties_blob (n : String) (m : List (String × String))
    (h : (".properties".data).isSuffixOf (canonicalizeNamespace n).data = false) :
    (∀ v, List.lookup "content" m = some v → (materialize n m).2 = v.data)
    ∧ (List.lookup "content" m = none → (materialize n m).2 = [])
    ∧ (∀ m2, List.lookup "content" m2 = List.lookup "content" m →
        (materialize n m2).2 = (materialize n m).2) := by
  refine ⟨?_, ?_, ?_⟩
  · intro v hv
    simp [materialize, h, hv]
  · intro hv
    simp [materialize, h, hv]
  · intro m2 hm
    simp [materialize, h, hm]

/-- C4 witness: `feature.json` with and without a `"content"` key, and an
unrelated key that does not influence the output. -/
theorem c4_witness :
    ((".properties".data).isSuffixOf (canonicalizeNamespace "feature.json").data = false)
    ∧ List.lookup "content" [("content", "X"), ("other", "Y")] = some "X"
    ∧ (materialize "feature.json" [("content", "X"), ("other", "Y")]).2 = "X".data :=
  ⟨by decide, by decide,
    (c4_non_properties_blob "feature.json" [("content", "X"), ("other", "Y")] (by decide)).1
      "X" (by decide)⟩

/-- C5 counterexample: the default INI writer does not escape `=` in keys,
so the two distinct maps `{"a=b": "c"}` and `{"a": "b=c"}` materialize to
byte-identical `.properties` files; no parser can recover both, and the
parser model recovers the wrong pairs for the first map.  This refutes the
claim that parsing the output recovers exactly the pairs of every map. -/
theorem c5_counterexample :
    (materialize "x.properties" [("a=b", "c")]).2 = (materialize "x.properties" [("a", "b=c")]).2
    ∧ [(("a=b" : String), ("c" : String))] ≠ [("a", "b=c")]
    ∧ parseProps (materialize "x.properties" [("a=b", "c")]).2 ≠ [("a=b".data, "c".data)] := by
  exact ⟨by decide, by decide, by decide⟩

/-- C5 (amended): for a namespace whose canonicalized filename ends in
`.properties`, the materialized bytes form a single-unnamed-section INI
document from which the parser recovers exactly the key/value pairs of the
map, provided no key contains the unescaped separator character `=` (the
counterexample shows the restriction is necessary); an empty map yields an
empty file with no entries. -/
theorem c5_amended_properties_roundtrip (n : String) (m : List (String × String))
    (hsuf : (".properties".data).isSuffixOf (canonicalizeNamespace n).data = true)
    (hk : ∀ kv ∈ m, '=' ∉ kv.1.data) :
    parseProps (materialize n m).2 = m.map (fun kv => (kv.1.data, kv.2.data))
    ∧ (m = [] → (materialize n m).2 = []) := by
  constructor
  · have hb : (materialize n m).2 = propsBytes (m.map (fun kv => (kv.1.data, kv.2.data))) := by
      simp [materialize, hsuf]
    rw [hb]
    refine parseProps_propsBytes _ ?_
    intro kv hkv
    rw [List.mem_map] at hkv
    obtain ⟨x, hx, rfl⟩ := hkv
    exact hk x hx
  · intro he
    subst he
    simp [materialize, hsuf, propsBytes]

/-- C5 witness: the spec's own example, `application.properties` with
`{"db.url": "jdbc:mysql://h/d"}`, round-trips. -/
theorem c5_amended_witness :
    ((".properties".data).isSuffixOf (canonicalizeNamespace "application.properties").data = true)
    ∧ (∀ kv ∈ [(("db.url" : String), ("jdbc:mysql://h/d" : String))], '=' ∉ kv.1.data)
    ∧ parseProps (materialize "application.properties" [("db.url", "jdbc:mysql://h/d")]).2
        = [("db.url".data, "jdbc:mysql://h/d".data)] :=
  ⟨by decide, by decide,
    (c5_amended_properties_roundtrip "application.properties" [("db.url", "jdbc:mysql://h/d")]
      (by decide) (by decide)).1⟩

/-- C6 counterexample: the watch loop iterates over the batch mapping in the
order the collaborator delivers it (`for (_, response) in responses` over
the returned `HashMap`), and nothing reorders it to the subscription's
request order.  With namespaces requested in order `alpha.json, beta.json`
but a batch delivered in the opposite iteration order, the files are written
in the delivered order, which differs from the requested order.  This
refutes "processed ... namely the order in which the namespaces were
requested". -/
theorem c6_counterexample :
    writesOf (run_app
        ⟨false, false, false, fun _ => none,
          fun _ => [Except.ok
            [("beta.json", Except.ok ⟨"app1", "beta.json", [("content", "B")]⟩),
             ("alpha.json", Except.ok ⟨"app1", "alpha.json", [("content", "A")]⟩)]],
          allOk⟩
        none ⟨"app1", ["alpha.json", "beta.json"]⟩ ["cfg"])
      = [["cfg", "app1", "beta.json"], ["cfg", "app1", "alpha.json"]]
    ∧ ["alpha.json", "beta.json"].map
        (fun ns => ["cfg", "app1", canonicalizeNamespace ns])
      ≠ [["cfg", "app1", "beta.json"], ["cfg", "app1", "alpha.json"]] := by
  exact ⟨by decide, by decide⟩

/-- C6 (amended): batches are processed strictly in the order the
subscription stream yields them, and entries within one batch strictly in
the order of the delivered batch mapping: when every entry succeeds, the
write effects appear exactly as the concatenation, batch by batch and entry
by entry, of each snapshot's destination path.  (The delivered in-batch
order is the collaborator's map iteration order; the program does not
reorder it to the request order.) -/
theorem c6_amended_processing_order (env : FsEnv) (base : Path) (batches : List Batch)
    (h : ∀ b ∈ batches, ∃ es, b = Except.ok es
          ∧ ∀ x ∈ es, (processEntry env base x).2 = none) :
    writesOf (watchLoop env base batches)
      = (batches.map (fun b =>
          match b with
          | .ok es => es.filterMap (fun x =>
              match x.2 with
              | .ok r => some (base ++ [r.app_id,
                  (materialize r.namespace_name r.configurations).1])
              | .error _ => none)
          | .error _ => [])).flatten := by
  induction batches with
  | nil => rfl
  | cons b rest ih =>
    obtain ⟨es, rfl, hok⟩ := h b (by simp)
    have hrest : ∀ x ∈ rest, ∃ es, x = Except.ok es
        ∧ ∀ y ∈ es, (processEntry env base y).2 = none := fun x hx => h x (by simp [hx])
    rw [watchLoop, writesOf_append, ih hrest]
    have hb : processBatch env base (Except.ok es) = processEntries env base es := rfl
    rw [hb, writesOf_processEntries env base es hok]
    simp

/-- C6 witness: two all-success batches processed in stream order, entries
in delivered order. -/
theorem c6_amended_witness :
    (∀ b ∈ ([Except.ok [("a.json", Except.ok ⟨"app1", "a.json", [("content", "A")]⟩)],
             Except.ok [("b.json", Except.ok ⟨"app1", "b.json", [("content", "B")]⟩)]] : List Batch),
      ∃ es, b = Except.ok es ∧ ∀ x ∈ es, (processEntry allOk ["cfg"] x).2 = none)
    ∧ writesOf (watchLoop allOk ["cfg"]
        [Except.ok [("a.json", Except.ok ⟨"app1", "a.json", [("content", "A")]⟩)],
         Except.ok [("b.json", Except.ok ⟨"app1", "b.json", [("content", "B")]⟩)]])
      = [["cfg", "app1", "a.json"], ["cfg", "app1", "b.json"]] := by
  have hyp : ∀ b ∈ ([Except.ok [("a.json", Except.ok ⟨"app1", "a.json", [("content", "A")]⟩)],
      Except.ok [("b.json", Except.ok ⟨"app1", "b.json", [("content", "B")]⟩)]] : List Batch),
      ∃ es, b = Except.ok es ∧ ∀ x ∈ es, (processEntry allOk ["cfg"] x).2 = none := by
    intro b hb
    rcases List.mem_cons.mp hb with rfl | hb
    · exact ⟨_, rfl, by decide⟩
    · rcases List.mem_cons.mp hb with rfl | hb
      · exact ⟨_, rfl, by decide⟩
      · cases hb
  refine ⟨hyp, ?_⟩
  rw [c6_amended_processing_order allOk ["cfg"] _ hyp]
  decide

/-- C7 counterexample: a fully successful invocation of the sink reports
success (`none`) after creating the file and writing the bytes, yet its
trace contains no flush effect at all — the program never durably flushes
before reporting success.  This refutes the flush part of the claim. -/
theorem c7_counterexample :
    processEntry allOk ["cfg"] ("n.json", Except.ok ⟨"app1", "n.json", [("content", "X")]⟩)
      = ([Eff.mkdirAll ["cfg", "app1"],
          Eff.create ["cfg", "app1", "n.json"],
          Eff.write ["cfg", "app1", "n.json"] "X".data], none)
    ∧ (processEntry allOk ["cfg"]
        ("n.json", Except.ok ⟨"app1", "n.json", [("content", "X")]⟩)).1.filter isFlush = [] := by
  exact ⟨by decide, by decide⟩

/-- C7 (amended): on every successful invocation of the file sink the
destination file is created or truncated and the content bytes are written
in full before success is reported, but no durable flush is issued: the
trace contains no flush effect. -/
theorem c7_amended_sink_writes_without_flush (env : FsEnv) (base : Path)
    (k : String) (resp : Snapshot)
    (hm : env.mkdirFails (base ++ [resp.app_id]) = false)
    (hc : env.createFails (base ++ [resp.app_id,
      (materialize resp.namespace_name resp.configurations).1]) = false)
    (hw : env.writeFails (base ++ [resp.app_id,
      (materialize resp.namespace_name resp.configurations).1]) = false) :
    processEntry env base (k, Except.ok resp)
      = ([.mkdirAll (base ++ [resp.app_id]),
          .create (base ++ [resp.app_id, (materialize resp.namespace_name resp.configurations).1]),
          .write (base ++ [resp.app_id, (materialize resp.namespace_name resp.configurations).1])
            (materialize resp.namespace_name resp.configurations).2], none)
    ∧ (processEntry env base (k, Except.ok resp)).1.filter isFlush = [] := by
  have h := processEntry_ok env base k resp hm hc hw
  exact ⟨h, by rw [h]; rfl⟩

/-- C7 witness: a concrete successful sink invocation. -/
theorem c7_amended_witness :
    (allOk.mkdirFails (["cfg"] ++ ["app1"]) = false)
    ∧ (processEntry allOk ["cfg"] ("m.json", Except.ok ⟨"app1", "m.json", [("content", "Y")]⟩)).1.filter
        isFlush = [] :=
  ⟨rfl,
    (c7_amended_sink_writes_without_flush allOk ["cfg"] "m.json"
      ⟨"app1", "m.json", [("content", "Y")]⟩ rfl rfl rfl).2⟩

/-- C8: successfully processing snapshot S1 and then snapshot S2 for the
same application and namespace leaves the destination file containing
exactly S2's materialized content — `File::create` truncates and the write
replaces the whole content, so nothing of S1 survives. -/
theorem c8_overwrite_semantics (env : FsEnv) (base : Path) (fs : Fs)
    (appId ns : String) (m1 m2 : List (String × String)) (k1 k2 : String)
    (hm : env.mkdirFails (base ++ [appId]) = false)
    (hc : env.createFails (base ++ [appId, canonicalizeNamespace ns]) = false)
    (hw : env.writeFails (base ++ [appId, canonicalizeNamespace ns]) = false) :
    lookupFile
      (applyTrace fs (watchLoop env base
        [Except.ok [(k1, Except.ok ⟨appId, ns, m1⟩)],
         Except.ok [(k2, Except.ok ⟨appId, ns, m2⟩)]]))
      (base ++ [appId, canonicalizeNamespace ns])
      = some (materialize ns m2).2 := by
  have h1 := processEntry_ok env base k1 ⟨appId, ns, m1⟩ hm hc hw
  have h2 := processEntry_ok env base k2 ⟨appId, ns, m2⟩ hm hc hw
  simp only [watchLoop, processBatch, processEntries, h1, h2]
  simp only [applyTrace, List.append_nil, List.foldl_cons, List.foldl_nil, applyEff]
  exact lookupFile_write_head _ _ _ _

/-- C8 witness: concrete S1 then S2; the file holds S2's bytes. -/
theorem c8_witness :
    (allOk.mkdirFails (["cfg"] ++ ["app1"]) = false)
    ∧ lookupFile
        (applyTrace ⟨[], []⟩ (watchLoop allOk ["cfg"]
          [Except.ok [("f.json", Except.ok ⟨"app1", "f.json", [("content", "S1")]⟩)],
           Except.ok [("f.json", Except.ok ⟨"app1", "f.json", [("content", "S2")]⟩)]]))
        (["cfg"] ++ ["app1", canonicalizeNamespace "f.json"])
      = some (materialize "f.json" [("content", "S2")]).2 :=
  ⟨rfl,
    c8_overwrite_semantics allOk ["cfg"] ⟨[], []⟩ "app1" "f.json"
      [("content", "S1")] [("content", "S2")] "f.json" "f.json" rfl rfl rfl⟩

/-- C9: the host identity resolver maps `HostName` to the
targeting-by-hostname marker and `Custom{value}` to the opaque targeting
string with the value passed through unchanged, with no failure mode in
either case; for `HostCidr{cidr}` with a syntactically invalid CIDR it
fails, and via the `?` chain in `run` that failure aborts startup with a
non-zero exit status before any watch loop starts (no per-application trace
is ever produced). -/
theorem c9_host_identity_resolution (p : String → Option IpCidr) :
    (host_to_ip_value p Host.HostName = Except.ok IpValue.HostName)
    ∧ (∀ v, host_to_ip_value p (Host.Custom v) = Except.ok (IpValue.Custom v))
    ∧ (∀ (env : RunEnv) (cfg : Config) (cidr : String),
        env.parseCidr = p → cfg.host = some (Host.HostCidr cidr) → p cidr = none →
        env.createBaseDirFails = false → env.urlParseFails = false →
        env.clientBuildFails = false →
        run env cfg = Except.error (StartErr.invalidHostSpec cidr)
        ∧ mainExitCode (run env cfg) = 1
        ∧ ∀ traces, run env cfg ≠ Except.ok traces) := by
  refine ⟨rfl, fun v => rfl, ?_⟩
  intro env cfg cidr hp hh hcd h1 h2 h3
  have hrun : run env cfg = Except.error (StartErr.invalidHostSpec cidr) := by
    rw [run]
    simp [h1, h2, h3, hh, hp, host_to_ip_value, hcd]
  refine ⟨hrun, by rw [hrun]; rfl, ?_⟩
  intro traces hcontra
  rw [hrun] at hcontra
  cases hcontra

/-- C9 witness: a concrete config whose CIDR cannot be parsed; startup
aborts with exit status 1 and no loop traces. -/
theorem c9_witness :
    run ⟨false, false, false, fun _ => none, fun _ => [], allOk⟩
        ⟨LogLevel.info, none, ["cfg"], "http://apollo", some (Host.HostCidr "bad"), []⟩
      = Except.error (StartErr.invalidHostSpec "bad")
    ∧ mainExitCode (run ⟨false, false, false, fun _ => none, fun _ => [], allOk⟩
        ⟨LogLevel.info, none, ["cfg"], "http://apollo", some (Host.HostCidr "bad"), []⟩) = 1 :=
  ⟨((c9_host_identity_resolution (fun _ => none)).2.2
      ⟨false, false, false, fun _ => none, fun _ => [], allOk⟩
      ⟨LogLevel.info, none, ["cfg"], "http://apollo", some (Host.HostCidr "bad"), []⟩
      "bad" rfl rfl rfl rfl rfl rfl).1,
   ((c9_host_identity_resolution (fun _ => none)).2.2
      ⟨false, false, false, fun _ => none, fun _ => [], allOk⟩
      ⟨LogLevel.info, none, ["cfg"], "http://apollo", some (Host.HostCidr "bad"), []⟩
      "bad" rfl rfl rfl rfl rfl rfl).2.1⟩

/-- C10: every successfully processed namespace entry is written at the
path base-directory / app-id-carried-in-the-snapshot / canonicalized
namespace filename, with the directory tree `base/app_id` created before
the write (the mkdir effect precedes the write in the trace), and that
directory creation is idempotent on the filesystem state. -/
theorem c10_destination_path (env : FsEnv) (base : Path) (k : String) (resp : Snapshot)
    (hm : env.mkdirFails (base ++ [resp.app_id]) = false)
    (hc : env.createFails (base ++ [resp.app_id,
      canonicalizeNamespace resp.namespace_name]) = false)
    (hw : env.writeFails (base ++ [resp.app_id,
      canonicalizeNamespace resp.namespace_name]) = false) :
    processEntry env base (k, Except.ok resp)
      = ([Eff.mkdirAll (base ++ [resp.app_id]),
          Eff.create (base ++ [resp.app_id, canonicalizeNamespace resp.namespace_name]),
          Eff.write (base ++ [resp.app_id, canonicalizeNamespace resp.namespace_name])
            (materialize resp.namespace_name resp.configurations).2], none)
    ∧ (∀ fs : Fs,
        applyEff (applyEff fs (Eff.mkdirAll (base ++ [resp.app_id])))
            (Eff.mkdirAll (base ++ [resp.app_id]))
          = applyEff fs (Eff.mkdirAll (base ++ [resp.app_id]))) := by
  refine ⟨processEntry_ok env base k resp hm hc hw, ?_⟩
  intro fs
  simp [applyEff, mkdirs_idem]

/-- C10 witness: a concrete entry lands at `cfg/app1/feature.json` with the
mkdir first, and the mkdir is idempotent. -/
theorem c10_witness :
    (allOk.mkdirFails (["cfg"] ++ ["app1"]) = false)
    ∧ processEntry allOk ["cfg"] ("feature.json",
        Except.ok ⟨"app1", "feature.json", [("content", "Z")]⟩)
      = ([Eff.mkdirAll (["cfg"] ++ ["app1"]),
          Eff.create (["cfg"] ++ ["app1", canonicalizeNamespace "feature.json"]),
          Eff.write (["cfg"] ++ ["app1", canonicalizeNamespace "feature.json"])
            (materialize "feature.json" [("content", "Z")]).2], none) :=
  ⟨rfl,
    (c10_destination_path allOk ["cfg"] "feature.json"
      ⟨"app1", "feature.json", [("content", "Z")]⟩ rfl rfl rfl).1⟩

end ApolloPuller
